import Mathlib

set_option maxHeartbeats 1000000
set_option linter.unusedVariables false

deriving instance DecidableEq for Except

/-!
Shallow embedding of `src/pine/vm/vm.py` (pine-bot-server): the evaluation
core of a Pine-script interpreter.  Python dicts become association lists,
the mutable `variable_tables` stack becomes explicit state passing, raised
exceptions become `Except` errors, and Python floats are modelled as exact
rationals (every float computation a proved theorem relies on is exact in
IEEE double as well; this is noted at the theorem).  Modules
`builtin_function`, `builtin_variable` and `helper` of the repository are
not under `src/`; only the slivers of their behaviour that the claims need
are modelled, each marked `Modelled from the spec:` in its doc comment.
-/

/-- Runtime value domain of the interpreter (spec section 3).  Tags mirror the
Python runtime types that `vm.py` discriminates on: `bool`, `int`, `float`
(modelled as an exact rational), `str`, `helper.Series` (a computed
time-series), `helper.BuiltinSeries` (a named market series, a subclass of
`Series` carrying a `varname`), and Python `None`. -/
inductive Value where
  | bool (b : Bool)
  | int (n : Int)
  | float (q : ℚ)
  | str (s : String)
  | series (data : List ℚ)
  | builtinSeries (varname : String) (data : List ℚ)
  | pynone
deriving DecidableEq, Repr

/-- Python runtime type tags ("kinds") as compared by `type(v) == type(value)`
in `VM.assign_variable`. -/
inductive VKind where
  | kBool | kInt | kFloat | kStr | kSeries | kBuiltinSeries | kNone
deriving DecidableEq, Repr

/-- Kind (Python type) of a value. -/
def Value.kind : Value → VKind
  | .bool _ => .kBool
  | .int _ => .kInt
  | .float _ => .kFloat
  | .str _ => .kStr
  | .series _ => .kSeries
  | .builtinSeries _ _ => .kBuiltinSeries
  | .pynone => .kNone

/-- Python `isinstance(v, Series)`: `BuiltinSeries` is a subclass of `Series`
(helper module; see spec sections 3 and 9, market-series is-a series). -/
def Value.isSeriesV : Value → Bool
  | .series _ => true
  | .builtinSeries _ _ => true
  | _ => false

/-- Series-ness as a predicate on kinds. -/
def VKind.isSeriesKind : VKind → Bool
  | .kSeries => true
  | .kBuiltinSeries => true
  | _ => false

/-- Errors raised by the code.  Constructors tagged `PineError` model the
interpreter error type `pine.base.PineError` with its format string; the
others model raw Python exceptions escaping the interpreter. -/
inductive PErr where
  /-- PineError "invalid type to assign: name: value for old" -/
  | assignTypeMismatch (name : String)
  /-- PineError "variable not found to assign: name" -/
  | assignNotFound (name : String)
  /-- PineError "variable not found: name" -/
  | varNotFound (name : String)
  /-- PineError "variable is not implemented: name" -/
  | varNotImplemented (name : String)
  /-- PineError "function is not found: name" -/
  | funcNotFound (name : String)
  /-- PineError "function is not implemented: name" -/
  | funcNotImplemented (name : String)
  /-- PineError "missing argument: name" -/
  | missingArgument (name : String)
  /-- PineError "msg: fname", wrapping a PineArgumentError from a builtin -/
  | argWrapped (msg : String) (fname : String)
  /-- builtin_function.PineArgumentError before wrapping -/
  | pineArgError (msg : String)
  /-- Python NotImplementedError -/
  | notImplementedError
  /-- Python KeyError: a raw host mapping-lookup failure, not a PineError -/
  | keyError (key : String)
  /-- any other host-level exception or behaviour outside this model -/
  | hostRaise
deriving DecidableEq, Repr

/-- True exactly on the constructors that model `pine.base.PineError`
instances (the interpreter's reported error type). -/
def PErr.isPineError : PErr → Bool
  | .assignTypeMismatch _ => true
  | .assignNotFound _ => true
  | .varNotFound _ => true
  | .varNotImplemented _ => true
  | .funcNotFound _ => true
  | .funcNotImplemented _ => true
  | .missingArgument _ => true
  | .argWrapped _ _ => true
  | .pineArgError _ => true
  | _ => false

/-- One scope: a Python dict from names to values, as an association list in
insertion order. -/
abbrev Scope := List (String × Value)

/-- Dict read, `t[name]` guarded by `name in t`. -/
def scopeGet : Scope → String → Option Value
  | [], _ => none
  | (k, v) :: rest, name => if k = name then some v else scopeGet rest name

/-- Dict write `t[name] = value`: replace in place when present, append when
absent. -/
def scopeSet : Scope → String → Value → Scope
  | [], name, value => [(name, value)]
  | (k, v) :: rest, name, value =>
      if k = name then (k, value) :: rest else (k, v) :: scopeSet rest name value

/-- Evaluation of an AST node body against the VM: the AST is an external
collaborator (spec section 2), so a node is just its `eval` behaviour: it
reads and writes the scope stack and returns a value or raises.  Returning
the final stack in the error case models that a Python exception propagates
over whatever state the node left behind. -/
abbrev NodeFn := List Scope → Except PErr Value × List Scope

/-- A host builtin callable `f(vm, args, kwargs)`. -/
abbrev HostFn := List Value → List (String × Value) → List Scope → Except PErr Value × List Scope

/-- One entry of `VM.function_table`: either a host callable loaded from
`builtin_function` (or installed by a specialization), or a user-defined
function registered as `(arg_ids, node)`. -/
inductive FuncEntry where
  | host (f : HostFn)
  | user (argIds : List String) (node : NodeFn)

/-- Dict read over the function table. -/
def lookupFn : List (String × FuncEntry) → String → Option FuncEntry
  | [], _ => none
  | (k, v) :: rest, name => if k = name then some v else lookupFn rest name

namespace VM

/-- `VM.push_scope`: append a fresh empty table. -/
def push_scope (tabs : List Scope) : List Scope := tabs ++ [[]]

/-- `VM.pop_scope`: `self.variable_tables.pop(-1)`.  On an empty list Python
would raise IndexError; every use in the source pops a scope it just pushed,
so the total model is exact on all reachable states. -/
def pop_scope (tabs : List Scope) : List Scope := tabs.dropLast

/-- `VM.define_variable`: `self.variable_tables[-1][name] = value`, writing
the innermost (last) table only. -/
def define_variable : List Scope → String → Value → List Scope
  | [], _, _ => []
  | [t], name, value => [scopeSet t name value]
  | t :: ts, name, value => t :: define_variable ts name value

/-- Source compatibility test in `VM.assign_variable`:
`isinstance(v, Series)` then `isinstance(value, Series)`, else
`type(v) == type(value)`. -/
def assignCompat (v value : Value) : Bool :=
  if v.isSeriesV then value.isSeriesV else decide (v.kind = value.kind)

/-- Loop body of `VM.assign_variable` over `reversed(self.variable_tables)`:
the argument list is the reversed stack, innermost scope first. -/
def assignLoop : List Scope → String → Value → Except PErr (List Scope)
  | [], name, _ => .error (.assignNotFound name)
  | t :: ts, name, value =>
      match scopeGet t name with
      | some v =>
          if assignCompat v value then .ok (scopeSet t name value :: ts)
          else .error (.assignTypeMismatch name)
      | none =>
          match assignLoop ts name value with
          | .ok ts2 => .ok (t :: ts2)
          | .error e => .error e

/-- `VM.assign_variable`: search scopes innermost to outermost, check type
compatibility on the first hit, update in place and return the value. -/
def assign_variable (tabs : List Scope) (name : String) (value : Value) :
    Except PErr (List Scope × Value) :=
  match assignLoop tabs.reverse name value with
  | .ok revTabs => .ok (revTabs.reverse, value)
  | .error e => .error e

/-- Loop of `VM.lookup_variable` over the reversed stack (first hit wins);
builtin accessor invocation (`isfunction(v)`) is omitted because scope values
in this model are plain data (the accessors live in `builtin_variable`, which
is not under `src/`, and no claim depends on them). -/
def lookupLoop : List Scope → String → Except PErr Value
  | [], name => .error (.varNotFound name)
  | t :: ts, name =>
      match scopeGet t name with
      | some v => .ok v
      | none => lookupLoop ts name

/-- `VM.lookup_variable`. -/
def lookup_variable (tabs : List Scope) (name : String) : Except PErr Value :=
  lookupLoop tabs.reverse name

/-- Positional binding loop of `VM._set_func_arguments`:
`for n, a in zip(names, args): self.define_variable(n, a)`. -/
def bindArgsPos : List String → List Value → List Scope → List Scope
  | n :: ns, a :: rest, tabs => bindArgsPos ns rest (define_variable tabs n a)
  | _, _, tabs => tabs

/-- Named binding loop of `VM._set_func_arguments`:
`for k, a in kwargs.items(): self.define_variable(k, a)` (dicts iterate in
insertion order). -/
def bindArgsNamed (kwargs : List (String × Value)) (tabs : List Scope) : List Scope :=
  kwargs.foldl (fun acc kv => define_variable acc kv.1 kv.2) tabs

/-- The innermost table `self.variable_tables[-1]` (empty-stack case is
unreachable in the source, which always holds the global scope). -/
def lastScope (tabs : List Scope) : Scope := (tabs.getLast?).getD []

/-- Check loop of `VM._set_func_arguments`: raise `missing argument: n` for
the first formal not bound in the innermost table. -/
def checkMissing (names : List String) (tabs : List Scope) : Except PErr Unit :=
  match names with
  | [] => .ok ()
  | n :: ns =>
      match scopeGet (lastScope tabs) n with
      | some _ => checkMissing ns tabs
      | none => .error (.missingArgument n)

/-- `VM._set_func_arguments(names, args, kwargs)`: bind positionally, bind by
name, then require every formal to be bound in the innermost table. -/
def set_func_arguments (names : List String) (args : List Value)
    (kwargs : List (String × Value)) (tabs : List Scope) :
    Except PErr Unit × List Scope :=
  let t1 := if args.isEmpty then tabs else bindArgsPos names args tabs
  let t2 := if kwargs.isEmpty then t1 else bindArgsNamed kwargs t1
  (checkMissing names t2, t2)

/-- `VM.func_call(fname, args, kwargs)`: dispatch to a host callable (wrapping
its argument and not-implemented signals) or to a user-defined function
(push a scope, bind arguments, evaluate the body, pop the scope on every exit
path — the `try/finally`). -/
def func_call (ftable : List (String × FuncEntry)) (fname : String)
    (args : List Value) (kwargs : List (String × Value)) (tabs : List Scope) :
    Except PErr Value × List Scope :=
  match lookupFn ftable fname with
  | none => (.error (.funcNotFound fname), tabs)
  | some (.host f) =>
      match f args kwargs tabs with
      | (.error (.pineArgError m), ts) => (.error (.argWrapped m fname), ts)
      | (.error .notImplementedError, ts) => (.error (.funcNotImplemented fname), ts)
      | r => r
  | some (.user argIds node) =>
      let t1 := push_scope tabs
      match set_func_arguments argIds args kwargs t1 with
      | (.error e, t2) => (.error e, pop_scope t2)
      | (.ok _, t2) =>
          let r := node t2
          (r.1, pop_scope r.2)

/-- `VM.eval_node(node)`: push one scope, evaluate, pop unconditionally
(the `try/finally`); the node's value is discarded. -/
def eval_node (node : NodeFn) (tabs : List Scope) : Except PErr Unit × List Scope :=
  match node (push_scope tabs) with
  | (.ok _, ts) => (.ok (), pop_scope ts)
  | (.error e, ts) => (.error e, pop_scope ts)

end VM

/-- Modelled from the spec: `builtin_function._parse_input_args` (not under
`src/`) parses an `input(...)` call's positional and named arguments into the
tuple `(defval, title, type, minval, maxval, confirm, step, options)`; absent
arguments are Python `None`, modelled as `Option.none`.  `title` and `type`
are strings when present. -/
structure ParsedInput where
  defval : Value
  title : Option String
  typ : Option String
  minval : Option Value
  maxval : Option Value
  confirm : Option Value
  step : Option Value
  options : Option Value
deriving DecidableEq, Repr

/-- Input descriptor dict appended by `InputScanner.input` (keys `defval`,
`title`, `type`, `minval`, `maxval`, `options`). -/
structure InputDesc where
  defval : Value
  title : String
  type : String
  minval : Option Value
  maxval : Option Value
  options : Option Value
deriving DecidableEq, Repr

/-- Python truthiness of the parsed `title`/`type` string arguments, as in
`if not title:` — falsy when `None` or the empty string. -/
def strFalsy : Option String → Bool
  | none => true
  | some t => t = ""

/-- Auto title computation shared verbatim by both passes:
`"input{}".format(n + 1)` when `title` is falsy (`InputScanner.input` uses
`n = len(self.inputs)`, `RenderVM.input` uses `n + 1 = self.input_idx` after
the increment), else the explicit title. -/
def autoTitle (n : Nat) (title : Option String) : String :=
  match title with
  | some t => if t = "" then ("input" ++ Nat.repr (n + 1)) else t
  | none => ("input" ++ Nat.repr (n + 1))

/-- Inference branch of `InputScanner.input` (`if typ is None:`): the
inferred type string together with the recorded default — a named market
series infers `"source"` and records its `varname` instead of the live
series. -/
def scanPair (p : ParsedInput) : String × Value :=
  match p.typ with
  | some t => (t, p.defval)
  | none =>
      match p.defval with
      | .bool _ => ("bool", p.defval)
      | .int _ => ("integer", p.defval)
      | .float _ => ("float", p.defval)
      | .builtinSeries vn _ => ("source", Value.str vn)
      | _ => ("string", p.defval)

namespace InputScanner

/-- `InputScanner.input(vm, args, kwargs)` after argument parsing: state is
the ordered descriptor list `self.inputs`; appends one descriptor and returns
the original default unchanged. -/
def input (st : List InputDesc) (p : ParsedInput) : List InputDesc × Value :=
  let td := scanPair p
  let title := autoTitle st.length p.title
  (st ++ [⟨td.2, title, td.1, p.minval, p.maxval, p.options⟩], p.defval)

end InputScanner

/-- Python `bool(v)` on the modelled values; `none` where the result depends
on code outside `src/` (the `helper` module's series classes). -/
def pyBool : Value → Option Bool
  | .bool b => some b
  | .int n => some (decide (n ≠ 0))
  | .float q => some (decide (q ≠ 0))
  | .str s => some (decide (s ≠ ""))
  | .pynone => some false
  | _ => none

/-- Python `int(v)` (truncation toward zero on floats); `none` where the call
raises or depends on unmodelled behaviour (string parsing, series). -/
def pyInt : Value → Option Int
  | .bool b => some (if b then 1 else 0)
  | .int n => some n
  | .float q => some (if q < 0 then -((-q).floor) else q.floor)
  | _ => none

/-- Python `float(v)`; `none` where unmodelled. -/
def pyFloat : Value → Option ℚ
  | .bool b => some (if b then 1 else 0)
  | .int n => some n
  | .float q => some q
  | _ => none

/-- Inference branch of `RenderVM.input` (`if not typ:`, the truthiness
check unlike the scan pass's `is None`): the effective type the render pass
coerces with — explicit when truthy, else inferred from the default's kind
(left as the falsy original for kinds with no inference branch, since the
render pass has no `"string"` fallback). -/
def renderEffType (p : ParsedInput) : Option String :=
  if strFalsy p.typ then
    match p.defval with
    | .bool _ => some "bool"
    | .int _ => some "integer"
    | .float _ => some "float"
    | .builtinSeries _ _ => some "source"
    | _ => p.typ
  else p.typ

/-- Coercion chain of `RenderVM.input` on the stored value: `bool(val)`,
`int(val)`, `float(val)`, or a variable lookup for `"source"`; any other
effective type returns the stored value unchanged.  Coercions the model
leaves undetermined (they depend on modules outside `src/`) surface as
`PErr.hostRaise`. -/
def coerceInput (typ : Option String) (tabs : List Scope) (v0 : Value) :
    Except PErr Value :=
  if typ = some "bool" then
    match pyBool v0 with
    | some b => .ok (.bool b)
    | none => .error .hostRaise
  else if typ = some "integer" then
    match pyInt v0 with
    | some n => .ok (.int n)
    | none => .error .hostRaise
  else if typ = some "float" then
    match pyFloat v0 with
    | some q => .ok (.float q)
    | none => .error .hostRaise
  else if typ = some "source" then
    match v0 with
    | .str s => VM.lookup_variable tabs s
    | _ => .error .hostRaise
  else .ok v0

namespace RenderVM

/-- `RenderVM.input(vm, args, kwargs)` after argument parsing.  State is the
1-based call counter `self.input_idx` (threaded as `idx`, incremented first);
`stored` is the `inputs` dict given to the constructor; `tabs` is the scope
stack (used by the `"source"` branch's `lookup_variable`).  The stored-value
lookup `self.inputs[title]` happens before any inference or coercion and its
failure is a raw `KeyError`. -/
def input (stored : Scope) (tabs : List Scope) (idx : Nat) (p : ParsedInput) :
    Except PErr Value × Nat :=
  let idx2 := idx + 1
  let title := autoTitle idx p.title
  match scopeGet stored title with
  | none => (.error (.keyError title), idx2)
  | some v0 => (coerceInput (renderEffType p) tabs v0, idx2)

end RenderVM

/-- Draw command dict accumulated in `RenderVM.plots`.  Optional fields model
optional dict keys (`none` = key absent); `title` itself may hold Python
`None` in `hline`/`fill`, hence `Option String` with `none` meaning the key
holds `None` for `plot` too (where `_expand_args` guarantees a string). -/
structure PlotCmd where
  title : Option String
  series : Value
  series2 : Option Value
  type : Option String
  mark : Option String
  color : Option Value
  width : Option Int
  alpha : Option ℚ
deriving DecidableEq, Repr

/-- Set the `type` key of a draw command. -/
def setType (p : PlotCmd) (t : String) : PlotCmd :=
  ⟨p.title, p.series, p.series2, some t, p.mark, p.color, p.width, p.alpha⟩

/-- Set the `mark` key of a draw command. -/
def setMark (p : PlotCmd) (m : String) : PlotCmd :=
  ⟨p.title, p.series, p.series2, p.type, some m, p.color, p.width, p.alpha⟩

/-- Set the `color` key of a draw command. -/
def setColor (p : PlotCmd) (c : Value) : PlotCmd :=
  ⟨p.title, p.series, p.series2, p.type, p.mark, some c, p.width, p.alpha⟩

/-- Set the `width` key of a draw command. -/
def setWidth (p : PlotCmd) (w : Int) : PlotCmd :=
  ⟨p.title, p.series, p.series2, p.type, p.mark, p.color, some w, p.alpha⟩

/-- Set the `alpha` key of a draw command. -/
def setAlpha (p : PlotCmd) (a : ℚ) : PlotCmd :=
  ⟨p.title, p.series, p.series2, p.type, p.mark, p.color, p.width, some a⟩

/-- Python truthiness of an optional int argument (`if style:` etc.): falsy
when absent or zero. -/
def truthyOptInt : Option Int → Bool
  | none => false
  | some n => decide (n ≠ 0)

/-- Modelled from the spec: the numeric values of the `STYLE_*` enumeration
constants live in `builtin_variable`, which is not under `src/`; the spec
fixes only the mapping in `RenderVM.plot`, so representative distinct nonzero
codes are used.  No claim depends on the concrete numbers. -/
def STYLE_LINE : Int := 1

/-- Modelled from the spec: see `STYLE_LINE`. -/
def STYLE_STEPLINE : Int := 2

/-- Modelled from the spec: see `STYLE_LINE`. -/
def STYLE_HISTOGRAM : Int := 3

/-- Modelled from the spec: see `STYLE_LINE`. -/
def STYLE_CROSS : Int := 4

/-- Modelled from the spec: see `STYLE_LINE`. -/
def STYLE_AREA : Int := 5

/-- Modelled from the spec: see `STYLE_LINE`. -/
def STYLE_COLUMNS : Int := 6

/-- Modelled from the spec: see `STYLE_LINE`. -/
def STYLE_CIRCLES : Int := 7

/-- Style chain of `RenderVM.plot`: chooses the visual type, setting a `mark`
for the two marker styles; unknown codes default to `"line"`. -/
def styleUpdate (p : PlotCmd) (style : Int) : PlotCmd :=
  if style = STYLE_LINE then setType p ("line")
  else if style = STYLE_STEPLINE then setType p ("line")
  else if style = STYLE_HISTOGRAM then setType p ("bar")
  else if style = STYLE_CROSS then setType (setMark p ("+")) ("marker")
  else if style = STYLE_AREA then setType p ("band")
  else if style = STYLE_COLUMNS then setType p ("bar")
  else if style = STYLE_CIRCLES then setType (setMark p ("o")) ("marker")
  else setType p ("line")

/-- Modelled from the spec: `helper.Series` negative indexing is not under
`src/`; the spec says a series-valued color resolves to its most recent
sample, i.e. `color[-1]` is the last element.  Out-of-range indexing is not
claim-relevant. -/
def seriesLastSample : Value → Value
  | .series data => .float ((data.getLast?).getD 0)
  | .builtinSeries _ data => .float ((data.getLast?).getD 0)
  | v => v

namespace RenderVM

/-- `RenderVM.plot(vm, args, kwargs)` after argument expansion.  State is the
accumulated command list `self.plots`; returns the appended command (the
same record, which a script may later pass to `fill`).  Python float
multiplication `transp * 0.01` is modelled exactly as `transp / 100`. -/
def plot (plots : List PlotCmd) (series : Value) (title : String)
    (color : Option Value) (linewidth : Option Int) (style : Option Int)
    (trackprice : Option Bool) (transp : Option Int) (histbase : Option ℚ)
    (offset : Option Int) (join : Option Bool) (editable : Option Bool)
    (show_last : Option Int) : List PlotCmd × PlotCmd :=
  let p0 : PlotCmd := ⟨some title, series, none, none, none, none, none, none⟩
  let p1 := if truthyOptInt style then styleUpdate p0 (style.getD 0) else p0
  let p2 :=
    match color with
    | none => p1
    | some c => setColor p1 (if c.isSeriesV then seriesLastSample c else c)
  let p3 := if truthyOptInt linewidth then setWidth p2 (linewidth.getD 0) else p2
  let p4 := if truthyOptInt transp then setAlpha p3 (((transp.getD 0 : Int) : ℚ) * (1 / 100)) else p3
  (plots ++ [p4], p4)

/-- `RenderVM.fill(vm, args, kwargs)` after argument expansion: takes two
prior draw-command records, builds a `"fill"` command referencing their
underlying `series` values, and appends it. -/
def fill (plots : List PlotCmd) (s1 s2 : PlotCmd) (color : Option Value)
    (transp : Option Int) (title : Option String) (editable : Option Bool)
    (show_last : Option Bool) : List PlotCmd × PlotCmd :=
  let p0 : PlotCmd := ⟨title, s1.series, some s2.series, some ("fill"), none, none, none, none⟩
  let p1 :=
    match color with
    | none => p0
    | some c => setColor p0 (if c.isSeriesV then seriesLastSample c else c)
  let p2 := if truthyOptInt transp then setAlpha p1 (((transp.getD 0 : Int) : ℚ) * (1 / 100)) else p1
  (plots ++ [p2], p2)

end RenderVM

/-- The one descriptor `InputScanner.input` appends when `self.inputs`
already holds `n` descriptors: a pure per-call characterization of the
append, used to state the claims (it is definitionally the record built by
`InputScanner.input`). -/
def scanDesc (n : Nat) (p : ParsedInput) : InputDesc :=
  ⟨(scanPair p).2, autoTitle n p.title, (scanPair p).1, p.minval, p.maxval, p.options⟩

/-- Scan pass over the input calls a script executes, in order: fold of
`InputScanner.input` from descriptor-list state `st`. -/
def scanRun (st : List InputDesc) : List ParsedInput → List InputDesc
  | [] => st
  | p :: ps => scanRun (InputScanner.input st p).1 ps

/-- The descriptors contributed by a call list when `n` descriptors precede
it: pure characterization of `scanRun`. -/
def scanList (n : Nat) : List ParsedInput → List InputDesc
  | [] => []
  | p :: ps => scanDesc n p :: scanList (n + 1) ps

/-- The stored-inputs dict the caller hands to `RenderVM.__init__`, built
from the scan pass's descriptors exactly as the round-trip claim prescribes:
a Python dict keyed by title holding each descriptor's recorded default
(later duplicates of a title overwrite earlier ones, as in a dict). -/
def storedOf (descs : List InputDesc) : Scope :=
  descs.foldl (fun m d => scopeSet m d.title d.defval) []

/-- Render pass over the same input calls, in order, threading the 1-based
call counter `self.input_idx`. -/
def renderRun (stored : Scope) (tabs : List Scope) (idx : Nat) :
    List ParsedInput → List (Except PErr Value)
  | [] => []
  | p :: ps =>
      let r := RenderVM.input stored tabs idx p
      r.1 :: renderRun stored tabs r.2 ps

/-- Guard of the amended round-trip claim: the render-pass coercion for this
call is the identity on the recorded default — the effective type is not
`"source"`, and when it is one of the three coercing types the default
already has that kind. -/
def specCoercionFixesDefault (p : ParsedInput) : Bool :=
  if renderEffType p = some "bool" then decide (p.defval.kind = VKind.kBool)
  else if renderEffType p = some "integer" then decide (p.defval.kind = VKind.kInt)
  else if renderEffType p = some "float" then decide (p.defval.kind = VKind.kFloat)
  else if renderEffType p = some "source" then false
  else true

/-- First binding of a name over an innermost-first scope list. -/
def specFindLoop : List Scope → String → Option Value
  | [], _ => none
  | t :: ts, name =>
      match scopeGet t name with
      | some v => some v
      | none => specFindLoop ts name

/-- Update the first scope binding the name over an innermost-first scope
list (identity when the name is bound nowhere). -/
def specUpdateLoop : List Scope → String → Value → List Scope
  | [], _, _ => []
  | t :: ts, name, value =>
      match scopeGet t name with
      | some _ => scopeSet t name value :: ts
      | none => t :: specUpdateLoop ts name value

/-- Innermost binding of a name in the scope stack: the last table listing
the name.  Reversing puts the innermost scope first, so this is the first
hit of the reversed stack — exactly the scope `VM.assign_variable`'s loop
stops at. -/
def specFindInnermost (tabs : List Scope) (name : String) : Option Value :=
  specFindLoop tabs.reverse name

/-- Update of the innermost scope containing the name, in place (identity
when the name is bound nowhere). -/
def specUpdateInnermost (tabs : List Scope) (name : String) (value : Value) :
    List Scope :=
  (specUpdateLoop tabs.reverse name value).reverse

/-- First formal parameter (in declaration order) not bound in a scope:
characterizes which name `VM.checkMissing` reports. -/
def specFirstUnbound (names : List String) (s : Scope) : Option String :=
  match names with
  | [] => none
  | n :: ns =>
      match scopeGet s n with
      | some _ => specFirstUnbound ns s
      | none => some n

/-- Positional binding restricted to one scope: what `VM.bindArgsPos` does to
the innermost table. -/
def bindPosScope : List String → List Value → Scope → Scope
  | n :: ns, a :: rest, s => bindPosScope ns rest (scopeSet s n a)
  | _, _, s => s

/-- Named binding restricted to one scope: what `VM.bindArgsNamed` does to
the innermost table. -/
def bindNamedScope (kwargs : List (String × Value)) (s : Scope) : Scope :=
  kwargs.foldl (fun acc kv => scopeSet acc kv.1 kv.2) s

/-- The call scope a user-defined function body starts in: the fresh pushed
table after positional then named binding. -/
def specCallScope (argIds : List String) (args : List Value)
    (kwargs : List (String × Value)) : Scope :=
  bindNamedScope kwargs (bindPosScope argIds args [])


/-! Lemmas: association-list scopes. -/

/-- Reading back a key just written. -/
theorem scopeGet_scopeSet_self (s : Scope) (k : String) (v : Value) :
    scopeGet (scopeSet s k v) k = some v := by
  induction s with
  | nil => simp [scopeSet, scopeGet]
  | cons kv rest ih =>
      by_cases h : kv.1 = k
      · simp [scopeSet, scopeGet, h]
      · simp [scopeSet, scopeGet, h, ih]

/-- Writing one key does not change another. -/
theorem scopeGet_scopeSet_ne (s : Scope) (k k2 : String) (v : Value)
    (h : k2 ≠ k) : scopeGet (scopeSet s k v) k2 = scopeGet s k2 := by
  induction s with
  | nil => simp [scopeSet, scopeGet, Ne.symm h]
  | cons kv rest ih =>
      obtain ⟨k1, v1⟩ := kv
      by_cases hk : k1 = k
      · subst hk
        simp [scopeSet, scopeGet, Ne.symm h]
      · by_cases hk2 : k1 = k2
        · simp [scopeSet, scopeGet, hk, hk2, h]
        · simp [scopeSet, scopeGet, hk, hk2, ih]

/-- Presence of a key survives any write. -/
theorem scopeGet_isSome_scopeSet (s : Scope) (k k2 : String) (v : Value)
    (h : (scopeGet s k).isSome) : (scopeGet (scopeSet s k2 v) k).isSome := by
  by_cases hk : k = k2
  · subst hk
    simp [scopeGet_scopeSet_self]
  · rw [scopeGet_scopeSet_ne s k2 k v hk]
    exact h

/-! Lemmas: the assignment loop of `VM.assign_variable`. -/

/-- Source compatibility test, restated over kinds: exact kind equality or
both kinds time-series. -/
theorem assignCompat_iff (v value : Value) :
    VM.assignCompat v value = true ↔
      (value.kind = v.kind ∨ (v.kind.isSeriesKind ∧ value.kind.isSeriesKind)) := by
  cases v <;> cases value <;>
    simp [VM.assignCompat, Value.isSeriesV, Value.kind, VKind.isSeriesKind]

/-- The assignment loop finds the first scope binding the name, checks
compatibility there, and updates that scope in place. -/
theorem assignLoop_eq (rts : List Scope) (name : String) (value : Value) :
    VM.assignLoop rts name value =
      match specFindLoop rts name with
      | none => .error (.assignNotFound name)
      | some v =>
          if VM.assignCompat v value then .ok (specUpdateLoop rts name value)
          else .error (.assignTypeMismatch name) := by
  induction rts with
  | nil => simp [VM.assignLoop, specFindLoop]
  | cons t ts ih =>
      cases hg : scopeGet t name with
      | some v =>
          by_cases hc : VM.assignCompat v value
          · simp [VM.assignLoop, specFindLoop, specUpdateLoop, hg, hc]
          · simp [VM.assignLoop, specFindLoop, specUpdateLoop, hg, hc]
      | none =>
          cases hf : specFindLoop ts name with
          | none =>
              simp [VM.assignLoop, specFindLoop, hg, ih, hf]
          | some v =>
              by_cases hc : VM.assignCompat v value
              · simp [VM.assignLoop, specFindLoop, specUpdateLoop, hg, ih, hf, hc]
              · simp [VM.assignLoop, specFindLoop, hg, ih, hf, hc]

/-- C1: for a name bound in some scope with a value of kind K1, assigning a
value of kind K2 succeeds — updating the innermost binding in place and
returning the assigned value — exactly when K2 equals K1 or both are
time-series kinds; an incompatible assignment to a bound name reports the
type-mismatch PineError, and an assignment to an unbound name reports the
variable-not-found PineError. -/
theorem assign_variable_correct (tabs : List Scope) (name : String) (value : Value) :
    VM.assign_variable tabs name value =
      match specFindInnermost tabs name with
      | none => .error (PErr.assignNotFound name)
      | some v =>
          if value.kind = v.kind ∨ (v.kind.isSeriesKind ∧ value.kind.isSeriesKind) then
            .ok (specUpdateInnermost tabs name value, value)
          else .error (PErr.assignTypeMismatch name) := by
  unfold VM.assign_variable specFindInnermost specUpdateInnermost
  rw [assignLoop_eq]
  cases hfind : specFindLoop tabs.reverse name with
  | none => simp
  | some v =>
      by_cases hc : value.kind = v.kind ∨ (v.kind.isSeriesKind ∧ value.kind.isSeriesKind)
      · have hcb : VM.assignCompat v value = true := (assignCompat_iff v value).mpr hc
        simp [hcb, hc]
      · have hcb : VM.assignCompat v value = false := by
          rcases hb : VM.assignCompat v value
          · rfl
          · exact absurd ((assignCompat_iff v value).mp hb) hc
        simp [hcb, hc]

/-! Lemmas: lengths and innermost-scope decomposition of the binding
operations. -/

/-- Defining a variable never changes the stack depth. -/
theorem length_define_variable (tabs : List Scope) (n : String) (v : Value) :
    (VM.define_variable tabs n v).length = tabs.length := by
  induction tabs with
  | nil => rfl
  | cons t ts ih =>
      cases ts with
      | nil => rfl
      | cons t2 ts2 => simpa [VM.define_variable] using ih

/-- Defining a variable writes the innermost table only. -/
theorem define_variable_concat (ts : List Scope) (s : Scope) (n : String) (v : Value) :
    VM.define_variable (ts ++ [s]) n v = ts ++ [scopeSet s n v] := by
  induction ts with
  | nil => rfl
  | cons t ts2 ih =>
      cases h2 : ts2 ++ [s] with
      | nil => exact absurd h2 (by simp)
      | cons u us =>
          simp only [List.cons_append, VM.define_variable, h2]
          rw [← h2, ih]

/-- Positional binding never changes the stack depth. -/
theorem length_bindArgsPos (ns : List String) (vs : List Value) (tabs : List Scope) :
    (VM.bindArgsPos ns vs tabs).length = tabs.length := by
  induction ns generalizing vs tabs with
  | nil => cases vs <;> rfl
  | cons n ns2 ih =>
      cases vs with
      | nil => rfl
      | cons a rest => simp [VM.bindArgsPos, ih, length_define_variable]

/-- Positional binding writes the innermost table only. -/
theorem bindArgsPos_concat (ns : List String) (vs : List Value) (ts : List Scope) (s : Scope) :
    VM.bindArgsPos ns vs (ts ++ [s]) = ts ++ [bindPosScope ns vs s] := by
  induction ns generalizing vs s with
  | nil => cases vs <;> rfl
  | cons n ns2 ih =>
      cases vs with
      | nil => rfl
      | cons a rest =>
          simp only [VM.bindArgsPos, bindPosScope, define_variable_concat, ih]

/-- Named binding never changes the stack depth. -/
theorem length_bindArgsNamed (kwargs : List (String × Value)) (tabs : List Scope) :
    (VM.bindArgsNamed kwargs tabs).length = tabs.length := by
  induction kwargs generalizing tabs with
  | nil => rfl
  | cons kv rest ih => simp [VM.bindArgsNamed, List.foldl_cons] at ih ⊢
                       rw [ih, length_define_variable]

/-- Named binding writes the innermost table only. -/
theorem bindArgsNamed_concat (kwargs : List (String × Value)) (ts : List Scope) (s : Scope) :
    VM.bindArgsNamed kwargs (ts ++ [s]) = ts ++ [bindNamedScope kwargs s] := by
  induction kwargs generalizing s with
  | nil => rfl
  | cons kv rest ih =>
      simp only [VM.bindArgsNamed, bindNamedScope, List.foldl_cons] at ih ⊢
      rw [define_variable_concat, ih]

/-- The innermost table of a stack written as `ts ++ [s]`. -/
theorem lastScope_concat (ts : List Scope) (s : Scope) :
    VM.lastScope (ts ++ [s]) = s := by
  simp [VM.lastScope]

/-- Argument binding never changes the stack depth. -/
theorem length_set_func_arguments (names : List String) (args : List Value)
    (kwargs : List (String × Value)) (tabs : List Scope) :
    ((VM.set_func_arguments names args kwargs tabs).2).length = tabs.length := by
  unfold VM.set_func_arguments
  by_cases ha : args.isEmpty <;> by_cases hk : kwargs.isEmpty <;>
    simp [ha, hk, length_bindArgsPos, length_bindArgsNamed]

/-- Argument binding on a stack with innermost table `s` binds into `s` only,
and checks the formals against the innermost table. -/
theorem set_func_arguments_concat (names : List String) (args : List Value)
    (kwargs : List (String × Value)) (ts : List Scope) (s : Scope) :
    VM.set_func_arguments names args kwargs (ts ++ [s]) =
      (VM.checkMissing names (ts ++ [bindNamedScope kwargs (bindPosScope names args s)]),
       ts ++ [bindNamedScope kwargs (bindPosScope names args s)]) := by
  unfold VM.set_func_arguments
  by_cases ha : args.isEmpty
  · have ha2 : args = [] := List.isEmpty_iff.mp ha
    subst ha2
    have hpos : bindPosScope names [] s = s := by cases names <;> rfl
    by_cases hk : kwargs.isEmpty
    · have hk2 : kwargs = [] := List.isEmpty_iff.mp hk
      subst hk2
      simp [hpos, bindNamedScope]
    · simp [ha, hk, hpos, bindArgsNamed_concat]
  · by_cases hk : kwargs.isEmpty
    · have hk2 : kwargs = [] := List.isEmpty_iff.mp hk
      subst hk2
      simp [ha, bindArgsPos_concat, bindNamedScope]
    · simp [ha, hk, bindArgsPos_concat, bindArgsNamed_concat]

/-- The check loop reports exactly the first unbound formal. -/
theorem checkMissing_eq (names : List String) (tabs : List Scope) :
    VM.checkMissing names tabs =
      match specFirstUnbound names (VM.lastScope tabs) with
      | none => .ok ()
      | some n => .error (.missingArgument n) := by
  induction names with
  | nil => rfl
  | cons n ns ih =>
      cases hg : scopeGet (VM.lastScope tabs) n with
      | some v => simp [VM.checkMissing, specFirstUnbound, hg, ih]
      | none => simp [VM.checkMissing, specFirstUnbound, hg]

/-- Always-succeeding node used to instantiate witnesses: leaves the stack
unchanged and returns integer zero. -/
def constNode : NodeFn := fun ts => (.ok (Value.int 0), ts)

/-- Always-failing node used to instantiate witnesses on the failure path. -/
def failNode : NodeFn := fun ts => (.error .hostRaise, ts)

/-- C2: scope-stack balance.  For a node whose evaluation preserves the stack
depth on every state (as all evaluation through this core does), `eval_node`
and a user-defined `func_call` leave the stack depth unchanged on every exit
path — success, argument-binding failure, and body failure alike; `eval_node`
pushes exactly one scope and pops it again. -/
theorem scope_stack_balanced (node : NodeFn) (tabs : List Scope)
    (hnode : ∀ ts, ((node ts).2).length = ts.length) :
    ((VM.eval_node node tabs).2).length = tabs.length ∧
    (∀ ftable fname argIds args kwargs,
      lookupFn ftable fname = some (FuncEntry.user argIds node) →
      ((VM.func_call ftable fname args kwargs tabs).2).length = tabs.length) := by
  constructor
  · unfold VM.eval_node
    have h2 : ((node (VM.push_scope tabs)).2).length = tabs.length + 1 := by
      rw [hnode]
      simp [VM.push_scope]
    cases hr : node (VM.push_scope tabs) with
    | mk r ts2 =>
        rw [hr] at h2
        cases r <;> simp [VM.pop_scope, List.length_dropLast, h2]
  · intro ftable fname argIds args kwargs hlk
    have h2 : ((VM.set_func_arguments argIds args kwargs (VM.push_scope tabs)).2).length
        = tabs.length + 1 := by
      rw [length_set_func_arguments]
      simp [VM.push_scope]
    cases hsf : VM.set_func_arguments argIds args kwargs (VM.push_scope tabs) with
    | mk r t2 =>
        rw [hsf] at h2
        simp only [VM.func_call, hlk, hsf]
        cases r with
        | error e => simp [VM.pop_scope, List.length_dropLast, h2]
        | ok u =>
            have h3 : ((node t2).2).length = tabs.length + 1 := by rw [hnode, h2]
            simp [VM.pop_scope, List.length_dropLast, h3]

/-- Witness for the scope-balance theorem: a concrete stack of depth one, a
failing body, and a call whose argument binding fails with MissingArgument,
all leave the depth at one. -/
theorem scope_stack_balanced_witness :
    ((VM.eval_node failNode [[]]).2).length = 1 ∧
    ((VM.func_call [("f", FuncEntry.user ["a"] failNode)] "f" [] [] [[]]).2).length = 1 := by
  have h := scope_stack_balanced failNode [[]] (fun ts => rfl)
  exact ⟨h.1, h.2 [("f", FuncEntry.user ["a"] failNode)] "f" ["a"] [] [] rfl⟩

/-- C3: user-function argument binding fails with the MissingArgument
PineError whenever a formal parameter is left unbound in the call scope — in
particular, a function of formals `(a, b)` called with only the named
argument `b` fails reporting `a`, and called with a single positional
argument fails reporting `b`; the failed call leaves the stack as it was. -/
theorem func_call_missing_argument :
    (∀ (v : Value) (node : NodeFn) (tabs : List Scope),
      VM.func_call [("f", FuncEntry.user ["a", "b"] node)] "f" [] [("b", v)] tabs
        = (.error (PErr.missingArgument "a"), tabs)) ∧
    (∀ (v : Value) (node : NodeFn) (tabs : List Scope),
      VM.func_call [("f", FuncEntry.user ["a", "b"] node)] "f" [v] [] tabs
        = (.error (PErr.missingArgument "b"), tabs)) ∧
    (∀ (ftable : List (String × FuncEntry)) (fname : String) (argIds : List String)
       (node : NodeFn) (args : List Value) (kwargs : List (String × Value))
       (tabs : List Scope) (n : String),
      lookupFn ftable fname = some (FuncEntry.user argIds node) →
      specFirstUnbound argIds (specCallScope argIds args kwargs) = some n →
      VM.func_call ftable fname args kwargs tabs
        = (.error (PErr.missingArgument n), tabs)) := by
  have general : ∀ (ftable : List (String × FuncEntry)) (fname : String)
      (argIds : List String) (node : NodeFn) (args : List Value)
      (kwargs : List (String × Value)) (tabs : List Scope) (n : String),
      lookupFn ftable fname = some (FuncEntry.user argIds node) →
      specFirstUnbound argIds (specCallScope argIds args kwargs) = some n →
      VM.func_call ftable fname args kwargs tabs
        = (.error (PErr.missingArgument n), tabs) := by
    intro ftable fname argIds node args kwargs tabs n hlk hmiss
    have hstep : VM.set_func_arguments argIds args kwargs (VM.push_scope tabs)
        = (.error (PErr.missingArgument n), tabs ++ [specCallScope argIds args kwargs]) := by
      rw [show VM.push_scope tabs = tabs ++ [[]] from rfl, set_func_arguments_concat,
        checkMissing_eq, lastScope_concat]
      rw [show bindNamedScope kwargs (bindPosScope argIds args [])
            = specCallScope argIds args kwargs from rfl, hmiss]
    simp only [VM.func_call, hlk, hstep]
    simp [VM.pop_scope]
  refine ⟨?_, ?_, general⟩
  · intro v node tabs
    exact general _ _ _ _ _ _ _ _ rfl rfl
  · intro v node tabs
    exact general _ _ _ _ _ _ _ _ rfl rfl

/-- Witness for the missing-argument theorem: concrete calls of a two-formal
function with only a named `b`, and with one positional argument. -/
theorem func_call_missing_argument_witness :
    VM.func_call [("f", FuncEntry.user ["a", "b"] constNode)] "f" [] [("b", Value.int 7)] [[]]
      = (.error (PErr.missingArgument "a"), [[]]) ∧
    VM.func_call [("g", FuncEntry.user ["a"] constNode)] "g" [] [] []
      = (.error (PErr.missingArgument "a"), []) := by
  constructor
  · exact func_call_missing_argument.1 (Value.int 7) constNode [[]]
  · exact func_call_missing_argument.2.2 _ _ ["a"] constNode [] [] [] "a" rfl rfl

/-! Lemmas: truncation and presence properties of argument binding. -/

/-- Positional binding with no formals is the identity. -/
theorem bindArgsPos_nil (vs : List Value) (tabs : List Scope) :
    VM.bindArgsPos [] vs tabs = tabs := by
  cases vs <;> rfl

/-- `zip` truncation: positional arguments beyond the formals are ignored. -/
theorem bindArgsPos_take (ns : List String) (vs : List Value) (tabs : List Scope) :
    VM.bindArgsPos ns vs tabs = VM.bindArgsPos ns (vs.take ns.length) tabs := by
  induction ns generalizing vs tabs with
  | nil => cases vs <;> rfl
  | cons n ns2 ih =>
      cases vs with
      | nil => rfl
      | cons a rest =>
          simp only [List.length_cons, List.take_succ_cons, VM.bindArgsPos]
          exact ih rest _

/-- Presence of a key in one scope survives positional binding. -/
theorem bindPosScope_isSome (ns : List String) (vs : List Value) (s : Scope)
    (k : String) (h : (scopeGet s k).isSome) :
    (scopeGet (bindPosScope ns vs s) k).isSome := by
  induction ns generalizing vs s with
  | nil => cases vs <;> exact h
  | cons n ns2 ih =>
      cases vs with
      | nil => exact h
      | cons a rest => exact ih rest _ (scopeGet_isSome_scopeSet s k n a h)

/-- Presence of a key in one scope survives named binding. -/
theorem bindNamedScope_isSome (kwargs : List (String × Value)) (s : Scope)
    (k : String) (h : (scopeGet s k).isSome) :
    (scopeGet (bindNamedScope kwargs s) k).isSome := by
  induction kwargs generalizing s with
  | nil => exact h
  | cons kv rest ih =>
      simp only [bindNamedScope, List.foldl_cons] at ih ⊢
      exact ih _ (scopeGet_isSome_scopeSet s k kv.1 kv.2 h)

/-- Every named argument ends up bound in the scope. -/
theorem bindNamedScope_mem (kwargs : List (String × Value)) (s : Scope)
    (k : String) (v : Value) (h : (k, v) ∈ kwargs) :
    (scopeGet (bindNamedScope kwargs s) k).isSome := by
  induction kwargs generalizing s with
  | nil => exact absurd h (List.not_mem_nil _)
  | cons kv rest ih =>
      simp only [bindNamedScope, List.foldl_cons] at ih ⊢
      rcases List.mem_cons.mp h with heq | hmem
      · subst heq
        exact bindNamedScope_isSome rest _ k (by simp [scopeGet_scopeSet_self])
      · exact ih _ hmem

/-- With at least as many positional arguments as formals, every formal ends
up bound. -/
theorem bindPosScope_mem (ns : List String) (vs : List Value) (s : Scope)
    (k : String) (hk : k ∈ ns) (hlen : ns.length ≤ vs.length) :
    (scopeGet (bindPosScope ns vs s) k).isSome := by
  induction ns generalizing vs s with
  | nil => exact absurd hk (List.not_mem_nil _)
  | cons n ns2 ih =>
      cases vs with
      | nil => simp at hlen
      | cons a rest =>
          rcases List.mem_cons.mp hk with heq | hmem
          · subst heq
            exact bindPosScope_isSome ns2 rest _ k (by simp [scopeGet_scopeSet_self])
          · exact ih rest _ hmem (by simpa using Nat.le_of_succ_le_succ (by simpa using hlen))

/-- A scope binding every formal has no first unbound formal. -/
theorem specFirstUnbound_none (names : List String) (s : Scope)
    (h : ∀ n ∈ names, (scopeGet s n).isSome) :
    specFirstUnbound names s = none := by
  induction names with
  | nil => rfl
  | cons n ns ih =>
      have hn := h n (List.mem_cons_self n ns)
      cases hg : scopeGet s n with
      | none => rw [hg] at hn; simp at hn
      | some v =>
          simp only [specFirstUnbound, hg]
          exact ih (fun m hm => h m (List.mem_cons_of_mem n hm))

/-- C9 (implicit): argument binding of a user-function call silently ignores
the extras.  Positional arguments beyond the formals are discarded (binding
behaves as on the truncated list); named arguments whose names are not
formals are simply defined as additional locals in the call scope (every
named argument is bound there); and neither situation produces an error —
with enough positional arguments the binding succeeds whatever extra named
arguments are passed. -/
theorem extra_arguments_ignored :
    (∀ (argIds : List String) (args : List Value) (kwargs : List (String × Value))
       (tabs : List Scope),
      VM.set_func_arguments argIds args kwargs tabs
        = VM.set_func_arguments argIds (args.take argIds.length) kwargs tabs) ∧
    (∀ (argIds : List String) (args : List Value) (kwargs : List (String × Value))
       (ts : List Scope) (s : Scope) (k : String) (v : Value),
      (k, v) ∈ kwargs →
      (scopeGet (VM.lastScope ((VM.set_func_arguments argIds args kwargs (ts ++ [s])).2)) k).isSome
        = true) ∧
    (∀ (argIds : List String) (args : List Value) (kwargs : List (String × Value))
       (ts : List Scope) (s : Scope),
      argIds.length ≤ args.length →
      (VM.set_func_arguments argIds args kwargs (ts ++ [s])).1 = .ok ()) := by
  refine ⟨?_, ?_, ?_⟩
  · intro argIds args kwargs tabs
    unfold VM.set_func_arguments
    by_cases ha : args.isEmpty
    · have ha2 : args = [] := List.isEmpty_iff.mp ha
      subst ha2
      rw [List.take_nil]
    · by_cases ht : (args.take argIds.length).isEmpty
      · have ht2 : args.take argIds.length = [] := List.isEmpty_iff.mp ht
        have hz : argIds = [] := by
          cases argIds with
          | nil => rfl
          | cons n ns =>
              cases args with
              | nil => simp at ha
              | cons a rest => simp at ht2
        subst hz
        simp [ha, ht, bindArgsPos_nil]
      · simp only [ha, ht, if_neg, Bool.false_eq_true]
        rw [bindArgsPos_take]
  · intro argIds args kwargs ts s k v hmem
    rw [set_func_arguments_concat]
    simp only [lastScope_concat]
    simp [bindNamedScope_mem kwargs _ k v hmem]
  · intro argIds args kwargs ts s hlen
    rw [set_func_arguments_concat, checkMissing_eq, lastScope_concat]
    rw [specFirstUnbound_none]
    intro n hn
    exact bindNamedScope_isSome kwargs _ n (bindPosScope_mem argIds args s n hn hlen)

/-- Witness for the extra-arguments theorem: one formal `a`, two positional
arguments and an unknown named argument `z` — binding truncates, defines `z`
in the call scope, and succeeds. -/
theorem extra_arguments_ignored_witness :
    VM.set_func_arguments ["a"] [Value.int 1, Value.int 2] [("z", Value.int 9)] [[]]
      = VM.set_func_arguments ["a"] [Value.int 1] [("z", Value.int 9)] [[]] ∧
    (scopeGet (VM.lastScope ((VM.set_func_arguments ["a"] [Value.int 1, Value.int 2]
      [("z", Value.int 9)] ([] ++ [[]])).2)) "z").isSome = true ∧
    (VM.set_func_arguments ["a"] [Value.int 1, Value.int 2] [("z", Value.int 9)] ([] ++ [[]])).1
      = .ok () := by
  refine ⟨?_, ?_, ?_⟩
  · exact extra_arguments_ignored.1 ["a"] [Value.int 1, Value.int 2] [("z", Value.int 9)] [[]]
  · exact extra_arguments_ignored.2.1 ["a"] [Value.int 1, Value.int 2] [("z", Value.int 9)]
      [] [] "z" (Value.int 9) (by simp)
  · exact extra_arguments_ignored.2.2 ["a"] [Value.int 1, Value.int 2] [("z", Value.int 9)]
      [] [] (by simp)

/-! Lemmas: field preservation through the draw-command builders. -/

/-- Setting the type keeps the alpha key. -/
theorem alpha_setType (p : PlotCmd) (t : String) : (setType p t).alpha = p.alpha := rfl

/-- Setting the mark keeps the alpha key. -/
theorem alpha_setMark (p : PlotCmd) (m : String) : (setMark p m).alpha = p.alpha := rfl

/-- Setting the color keeps the alpha key. -/
theorem alpha_setColor (p : PlotCmd) (c : Value) : (setColor p c).alpha = p.alpha := rfl

/-- Setting the width keeps the alpha key. -/
theorem alpha_setWidth (p : PlotCmd) (w : Int) : (setWidth p w).alpha = p.alpha := rfl

/-- Setting the alpha sets the alpha key. -/
theorem alpha_setAlpha (p : PlotCmd) (a : ℚ) : (setAlpha p a).alpha = some a := rfl

/-- The style branch never touches the alpha key. -/
theorem alpha_styleUpdate (p : PlotCmd) (s : Int) : (styleUpdate p s).alpha = p.alpha := by
  unfold styleUpdate
  split_ifs <;> rfl

/-- The style branch never touches the series reference. -/
theorem series_styleUpdate (p : PlotCmd) (s : Int) : (styleUpdate p s).series = p.series := by
  unfold styleUpdate
  split_ifs <;> rfl

/-- Setting the color keeps the series reference. -/
theorem series_setColor (p : PlotCmd) (c : Value) : (setColor p c).series = p.series := rfl

/-- Setting the width keeps the series reference. -/
theorem series_setWidth (p : PlotCmd) (w : Int) : (setWidth p w).series = p.series := rfl

/-- Setting the alpha keeps the series reference. -/
theorem series_setAlpha (p : PlotCmd) (a : ℚ) : (setAlpha p a).series = p.series := rfl

/-- Setting the color keeps the second series reference. -/
theorem series2_setColor (p : PlotCmd) (c : Value) : (setColor p c).series2 = p.series2 := rfl

/-- Setting the alpha keeps the second series reference. -/
theorem series2_setAlpha (p : PlotCmd) (a : ℚ) : (setAlpha p a).series2 = p.series2 := rfl

/-- Setting the color keeps the type key. -/
theorem type_setColor (p : PlotCmd) (c : Value) : (setColor p c).type = p.type := rfl

/-- Setting the alpha keeps the type key. -/
theorem type_setAlpha (p : PlotCmd) (a : ℚ) : (setAlpha p a).type = p.type := rfl

/-- The command a plot call returns references the series argument. -/
theorem plot_snd_series (plots : List PlotCmd) (series : Value) (title : String)
    (color : Option Value) (linewidth style : Option Int) (trackprice : Option Bool)
    (transp : Option Int) (histbase : Option ℚ) (offset : Option Int)
    (join editable : Option Bool) (show_last : Option Int) :
    ((RenderVM.plot plots series title color linewidth style trackprice transp
      histbase offset join editable show_last).2).series = series := by
  simp only [RenderVM.plot]
  cases color <;>
    split_ifs <;>
      simp [series_styleUpdate, series_setColor, series_setWidth, series_setAlpha]

/-- A plot call appends exactly the command it returns. -/
theorem plot_fst (plots : List PlotCmd) (series : Value) (title : String)
    (color : Option Value) (linewidth style : Option Int) (trackprice : Option Bool)
    (transp : Option Int) (histbase : Option ℚ) (offset : Option Int)
    (join editable : Option Bool) (show_last : Option Int) :
    (RenderVM.plot plots series title color linewidth style trackprice transp
      histbase offset join editable show_last).1
      = plots ++ [(RenderVM.plot plots series title color linewidth style trackprice transp
          histbase offset join editable show_last).2] := rfl

/-- C7: a plot call with `transp=25` carries opacity `0.25` (exact also in
IEEE doubles: `25 * 0.01` rounds to `0.25`); with the transparency argument
omitted the command has no opacity key; and in both cases the produced draw
command is the one appended. -/
theorem plot_transparency_alpha (plots : List PlotCmd) (series : Value) (title : String)
    (color : Option Value) (linewidth style : Option Int) (trackprice : Option Bool)
    (histbase : Option ℚ) (offset : Option Int) (join editable : Option Bool)
    (show_last : Option Int) :
    ((RenderVM.plot plots series title color linewidth style trackprice (some 25)
      histbase offset join editable show_last).2).alpha = some (1 / 4 : ℚ) ∧
    ((RenderVM.plot plots series title color linewidth style trackprice none
      histbase offset join editable show_last).2).alpha = none ∧
    (∀ transp : Option Int,
      (RenderVM.plot plots series title color linewidth style trackprice transp
        histbase offset join editable show_last).1
        = plots ++ [(RenderVM.plot plots series title color linewidth style trackprice transp
            histbase offset join editable show_last).2]) := by
  refine ⟨?_, ?_, fun transp => plot_fst plots series title color linewidth style
    trackprice transp histbase offset join editable show_last⟩
  · simp only [RenderVM.plot]
    have h25 : truthyOptInt (some 25) = true := by decide
    rw [h25]
    cases color <;> split_ifs <;>
      simp_all [alpha_setAlpha, alpha_setColor, alpha_setWidth, alpha_styleUpdate] <;>
      norm_num
  · simp only [RenderVM.plot]
    have h0 : truthyOptInt none = false := rfl
    rw [h0]
    cases color <;> split_ifs <;>
      simp_all [alpha_setColor, alpha_setWidth, alpha_styleUpdate]

/-- C8: a fill call whose series arguments are the command records returned
by two prior plot calls appends exactly one command of type "fill" after both
plot commands, and that command references the two underlying series of the
plot calls (the original series values, not the command records). -/
theorem fill_references_series (plots : List PlotCmd) (s1v s2v : Value)
    (t1 t2 : String) (c1 c2 : Option Value) (w1 w2 st1 st2 : Option Int)
    (tp1 tp2 : Option Bool) (tr1 tr2 : Option Int) (hb1 hb2 : Option ℚ)
    (o1 o2 : Option Int) (j1 j2 e1 e2 : Option Bool) (sl1 sl2 : Option Int)
    (colF : Option Value) (trF : Option Int) (tF : Option String)
    (eF slF : Option Bool) :
    (RenderVM.fill (RenderVM.plot (RenderVM.plot plots s1v t1 c1 w1 st1 tp1 tr1 hb1 o1 j1 e1 sl1).1
        s2v t2 c2 w2 st2 tp2 tr2 hb2 o2 j2 e2 sl2).1
      ((RenderVM.plot plots s1v t1 c1 w1 st1 tp1 tr1 hb1 o1 j1 e1 sl1).2)
      ((RenderVM.plot (RenderVM.plot plots s1v t1 c1 w1 st1 tp1 tr1 hb1 o1 j1 e1 sl1).1
        s2v t2 c2 w2 st2 tp2 tr2 hb2 o2 j2 e2 sl2).2)
      colF trF tF eF slF).1
      = plots
        ++ [(RenderVM.plot plots s1v t1 c1 w1 st1 tp1 tr1 hb1 o1 j1 e1 sl1).2]
        ++ [(RenderVM.plot (RenderVM.plot plots s1v t1 c1 w1 st1 tp1 tr1 hb1 o1 j1 e1 sl1).1
            s2v t2 c2 w2 st2 tp2 tr2 hb2 o2 j2 e2 sl2).2]
        ++ [(RenderVM.fill (RenderVM.plot (RenderVM.plot plots s1v t1 c1 w1 st1 tp1 tr1 hb1 o1 j1 e1 sl1).1
              s2v t2 c2 w2 st2 tp2 tr2 hb2 o2 j2 e2 sl2).1
            ((RenderVM.plot plots s1v t1 c1 w1 st1 tp1 tr1 hb1 o1 j1 e1 sl1).2)
            ((RenderVM.plot (RenderVM.plot plots s1v t1 c1 w1 st1 tp1 tr1 hb1 o1 j1 e1 sl1).1
              s2v t2 c2 w2 st2 tp2 tr2 hb2 o2 j2 e2 sl2).2)
            colF trF tF eF slF).2] ∧
    ((RenderVM.fill (RenderVM.plot (RenderVM.plot plots s1v t1 c1 w1 st1 tp1 tr1 hb1 o1 j1 e1 sl1).1
        s2v t2 c2 w2 st2 tp2 tr2 hb2 o2 j2 e2 sl2).1
      ((RenderVM.plot plots s1v t1 c1 w1 st1 tp1 tr1 hb1 o1 j1 e1 sl1).2)
      ((RenderVM.plot (RenderVM.plot plots s1v t1 c1 w1 st1 tp1 tr1 hb1 o1 j1 e1 sl1).1
        s2v t2 c2 w2 st2 tp2 tr2 hb2 o2 j2 e2 sl2).2)
      colF trF tF eF slF).2).type = some "fill" ∧
    ((RenderVM.fill (RenderVM.plot (RenderVM.plot plots s1v t1 c1 w1 st1 tp1 tr1 hb1 o1 j1 e1 sl1).1
        s2v t2 c2 w2 st2 tp2 tr2 hb2 o2 j2 e2 sl2).1
      ((RenderVM.plot plots s1v t1 c1 w1 st1 tp1 tr1 hb1 o1 j1 e1 sl1).2)
      ((RenderVM.plot (RenderVM.plot plots s1v t1 c1 w1 st1 tp1 tr1 hb1 o1 j1 e1 sl1).1
        s2v t2 c2 w2 st2 tp2 tr2 hb2 o2 j2 e2 sl2).2)
      colF trF tF eF slF).2).series = s1v ∧
    ((RenderVM.fill (RenderVM.plot (RenderVM.plot plots s1v t1 c1 w1 st1 tp1 tr1 hb1 o1 j1 e1 sl1).1
        s2v t2 c2 w2 st2 tp2 tr2 hb2 o2 j2 e2 sl2).1
      ((RenderVM.plot plots s1v t1 c1 w1 st1 tp1 tr1 hb1 o1 j1 e1 sl1).2)
      ((RenderVM.plot (RenderVM.plot plots s1v t1 c1 w1 st1 tp1 tr1 hb1 o1 j1 e1 sl1).1
        s2v t2 c2 w2 st2 tp2 tr2 hb2 o2 j2 e2 sl2).2)
      colF trF tF eF slF).2).series2 = some s2v := by
  have hfillSeries : ∀ (ps : List PlotCmd) (a b : PlotCmd),
      (RenderVM.fill ps a b colF trF tF eF slF).2.series = a.series ∧
      (RenderVM.fill ps a b colF trF tF eF slF).2.series2 = some b.series ∧
      (RenderVM.fill ps a b colF trF tF eF slF).2.type = some "fill" ∧
      (RenderVM.fill ps a b colF trF tF eF slF).1 = ps ++ [(RenderVM.fill ps a b colF trF tF eF slF).2] := by
    intro ps a b
    simp only [RenderVM.fill]
    cases colF <;> split_ifs <;>
      simp_all [series_setColor, series_setAlpha, series2_setColor, series2_setAlpha,
        type_setColor, type_setAlpha]
  refine ⟨?_, ?_, ?_, ?_⟩
  · rw [(hfillSeries _ _ _).2.2.2, plot_fst plots s1v t1 c1 w1 st1 tp1 tr1 hb1 o1 j1 e1 sl1,
      plot_fst _ s2v t2 c2 w2 st2 tp2 tr2 hb2 o2 j2 e2 sl2]
  · exact (hfillSeries _ _ _).2.2.1
  · rw [(hfillSeries _ _ _).1, plot_snd_series]
  · rw [(hfillSeries _ _ _).2.1, plot_snd_series]

/-- C5: every scan-pass input call appends exactly one descriptor to the
ordered output list and returns the original default unchanged; when the
default is a named market series and no explicit type is given, the inferred
type is "source", the recorded default is the series' symbolic variable
name, and the returned value is still the original live series. -/
theorem scan_input_appends_descriptor :
    (∀ (st : List InputDesc) (p : ParsedInput),
      InputScanner.input st p = (st ++ [scanDesc st.length p], p.defval)) ∧
    (∀ (st : List InputDesc) (vn : String) (data : List ℚ) (title : Option String)
       (minv maxv conf stp opts : Option Value),
      InputScanner.input st ⟨Value.builtinSeries vn data, title, none, minv, maxv, conf, stp, opts⟩
        = (st ++ [⟨Value.str vn, autoTitle st.length title, "source", minv, maxv, opts⟩],
           Value.builtinSeries vn data)) := by
  constructor
  · intro st p
    rfl
  · intro st vn data title minv maxv conf stp opts
    rfl

/-- C6: a scan pass that executes exactly two input calls, neither with an
explicit title, records descriptor titles "input1" and "input2" in call
order. -/
theorem scan_auto_titles (d1 d2 : Value) (ty1 ty2 : Option String)
    (m1 x1 c1 s1 o1 m2 x2 c2 s2 o2 : Option Value) :
    (scanRun [] [⟨d1, none, ty1, m1, x1, c1, s1, o1⟩,
                 ⟨d2, none, ty2, m2, x2, c2, s2, o2⟩]).map InputDesc.title
      = ["input1", "input2"] := by
  show [autoTitle 0 none, autoTitle 1 none] = ["input1", "input2"]
  rfl

/-- C10 (implicit): the render pass's input handler looks the stored value up
by title before any type inference or coercion; when the stored-inputs dict
has no entry for the (explicit or auto-generated) title, the call fails with
a raw host KeyError for that title — not with the interpreter's reported
error type. -/
theorem render_input_key_error (stored : Scope) (tabs : List Scope) (idx : Nat)
    (p : ParsedInput)
    (h : scopeGet stored (autoTitle idx p.title) = none) :
    (RenderVM.input stored tabs idx p).1 = .error (.keyError (autoTitle idx p.title)) ∧
    (PErr.keyError (autoTitle idx p.title)).isPineError = false := by
  constructor
  · simp [RenderVM.input, h]
  · rfl

/-- Witness for the KeyError theorem: empty stored inputs and an explicit
title `x`, with a default and explicit type whose coercion would otherwise
run. -/
theorem render_input_key_error_witness :
    (RenderVM.input [] [] 0 ⟨Value.pynone, some "x", some "integer", none, none,
      none, none, none⟩).1 = .error (.keyError "x") ∧
    (PErr.keyError "x").isPineError = false :=
  render_input_key_error [] [] 0
    ⟨Value.pynone, some "x", some "integer", none, none, none, none, none⟩ rfl

/-! Lemmas: characterizing the scan and render passes call by call. -/

/-- One scan-pass input call appends the characterized descriptor. -/
theorem scanInput_eq (st : List InputDesc) (p : ParsedInput) :
    InputScanner.input st p = (st ++ [scanDesc st.length p], p.defval) := rfl

/-- The scan pass appends the characterized descriptor list. -/
theorem scanRun_eq (ps : List ParsedInput) (st : List InputDesc) :
    scanRun st ps = st ++ scanList st.length ps := by
  induction ps generalizing st with
  | nil => simp [scanRun, scanList]
  | cons p ps2 ih =>
      rw [scanRun, scanInput_eq, ih]
      simp [scanList]

/-- Length of the characterized descriptor list. -/
theorem scanList_length (ps : List ParsedInput) (n : Nat) :
    (scanList n ps).length = ps.length := by
  induction ps generalizing n with
  | nil => rfl
  | cons p ps2 ih => simp [scanList, ih]

/-- Element-wise view of the characterized descriptor list. -/
theorem scanList_getElem (ps : List ParsedInput) (n i : Nat) (hi : i < ps.length) :
    (scanList n ps)[i]? = some (scanDesc (n + i) ps[i]) := by
  induction ps generalizing n i with
  | nil => exact absurd hi (by simp)
  | cons p ps2 ih =>
      cases i with
      | zero => simp [scanList]
      | succ j =>
          have hj : j < ps2.length := Nat.lt_of_succ_lt_succ hi
          simp only [scanList, List.getElem?_cons_succ, List.getElem_cons_succ]
          rw [ih (n + 1) j hj]
          have harith : n + 1 + j = n + (j + 1) := by omega
          rw [harith]

/-- The render pass's counter increments by one on every call, KeyError or
not. -/
theorem renderInput_idx (stored : Scope) (tabs : List Scope) (idx : Nat)
    (p : ParsedInput) : (RenderVM.input stored tabs idx p).2 = idx + 1 := by
  unfold RenderVM.input
  cases hg : scopeGet stored (autoTitle idx p.title) <;> simp [hg]

/-- Element-wise view of the render pass: the i-th result is the i-th call
handled at counter `n + i`. -/
theorem renderRun_getElem (stored : Scope) (tabs : List Scope)
    (ps : List ParsedInput) (n i : Nat) (hi : i < ps.length) :
    (renderRun stored tabs n ps)[i]?
      = some ((RenderVM.input stored tabs (n + i) ps[i]).1) := by
  induction ps generalizing n i with
  | nil => exact absurd hi (by simp)
  | cons p ps2 ih =>
      cases i with
      | zero => simp [renderRun]
      | succ j =>
          have hj : j < ps2.length := Nat.lt_of_succ_lt_succ hi
          simp only [renderRun, List.getElem?_cons_succ, List.getElem_cons_succ,
            renderInput_idx]
          rw [ih (n + 1) j hj]
          have harith : n + 1 + j = n + (j + 1) := by omega
          rw [harith]

/-- Folding descriptors whose titles all differ from `k` leaves `k`'s lookup
unchanged. -/
theorem storedFold_untouched (l : List InputDesc) (acc : Scope) (k : String)
    (h : ∀ d ∈ l, d.title ≠ k) :
    scopeGet (l.foldl (fun m d => scopeSet m d.title d.defval) acc) k = scopeGet acc k := by
  induction l generalizing acc with
  | nil => rfl
  | cons d rest ih =>
      simp only [List.foldl_cons]
      rw [ih _ (fun d2 hd2 => h d2 (List.mem_cons_of_mem d hd2)),
        scopeGet_scopeSet_ne _ _ _ _ (Ne.symm (h d (List.mem_cons_self d rest)))]

/-- With pairwise distinct titles, the stored dict maps each descriptor's
title to that descriptor's recorded default. -/
theorem storedOf_get_aux (l : List InputDesc) (acc : Scope)
    (hnodup : (l.map InputDesc.title).Nodup) (i : Nat) (hi : i < l.length) :
    scopeGet (l.foldl (fun m d => scopeSet m d.title d.defval) acc) ((l.get ⟨i, hi⟩).title)
      = some ((l.get ⟨i, hi⟩).defval) := by
  induction l generalizing acc i with
  | nil => exact absurd hi (by simp)
  | cons d rest ih =>
      cases i with
      | zero =>
          simp only [List.foldl_cons, List.get]
          have hne : ∀ d2 ∈ rest, d2.title ≠ d.title := by
            intro d2 hd2 heq
            have : d.title ∈ rest.map InputDesc.title := by
              rw [← heq]
              exact List.mem_map_of_mem InputDesc.title hd2
            exact (List.nodup_cons.mp (by simpa using hnodup)).1 this
          rw [storedFold_untouched rest _ d.title hne, scopeGet_scopeSet_self]
      | succ j =>
          have hj : j < rest.length := Nat.lt_of_succ_lt_succ hi
          simp only [List.foldl_cons, List.get]
          exact ih _ (List.nodup_cons.mp (by simpa using hnodup)).2 j hj

/-- Under the round-trip guard, the scan pass records the original default
(the source-substitution case is excluded). -/
theorem scanPair_snd_of_fixes (p : ParsedInput)
    (hfix : specCoercionFixesDefault p = true) : (scanPair p).2 = p.defval := by
  unfold scanPair
  cases ht : p.typ with
  | some t => rfl
  | none =>
      cases hd : p.defval with
      | builtinSeries vn data =>
          exfalso
          have heff : renderEffType p = some "source" := by
            simp [renderEffType, strFalsy, ht, hd]
          rw [specCoercionFixesDefault] at hfix
          simp [heff] at hfix
      | bool b => rfl
      | int n => rfl
      | float q => rfl
      | str s => rfl
      | series data => rfl
      | pynone => rfl

/-- Under the round-trip guard, the render coercion applied to the original
default returns it unchanged. -/
theorem coerceInput_fixes (p : ParsedInput) (tabs : List Scope)
    (hfix : specCoercionFixesDefault p = true) :
    coerceInput (renderEffType p) tabs p.defval = .ok p.defval := by
  rw [specCoercionFixesDefault] at hfix
  by_cases h1 : renderEffType p = some "bool"
  · rw [if_pos h1] at hfix
    cases hd : p.defval <;> simp [hd, Value.kind] at hfix <;>
      simp [coerceInput, h1, pyBool, hd]
  · rw [if_neg h1] at hfix
    by_cases h2 : renderEffType p = some "integer"
    · rw [if_pos h2] at hfix
      cases hd : p.defval <;> simp [hd, Value.kind] at hfix <;>
        simp [coerceInput, h2, pyInt, hd]
    · rw [if_neg h2] at hfix
      by_cases h3 : renderEffType p = some "float"
      · rw [if_pos h3] at hfix
        cases hd : p.defval <;> simp [hd, Value.kind] at hfix <;>
          simp [coerceInput, h3, pyFloat, hd]
      · rw [if_neg h3] at hfix
        by_cases h4 : renderEffType p = some "source"
        · rw [if_pos h4] at hfix
          exact absurd hfix (by simp)
        · simp [coerceInput, h1, h2, h3, h4]

/-- One render call whose stored value is the original default returns it
unchanged under the round-trip guard. -/
theorem renderInput_fixes (stored : Scope) (tabs : List Scope) (n : Nat)
    (p : ParsedInput)
    (hst : scopeGet stored (autoTitle n p.title) = some ((scanPair p).2))
    (hfix : specCoercionFixesDefault p = true) :
    (RenderVM.input stored tabs n p).1 = .ok p.defval := by
  have hval : (scanPair p).2 = p.defval := scanPair_snd_of_fixes p hfix
  rw [hval] at hst
  unfold RenderVM.input
  simp only [hst]
  exact coerceInput_fixes p tabs hfix

/-- The render pass produces one result per call. -/
theorem renderRun_length (stored : Scope) (tabs : List Scope) (ps : List ParsedInput)
    (n : Nat) : (renderRun stored tabs n ps).length = ps.length := by
  induction ps generalizing n with
  | nil => rfl
  | cons p ps2 ih => simp [renderRun, ih]

/-- C4 counterexample: the round trip is not the identity for every
non-source input call.  A call with explicit type "bool" and integer default
5 renders as boolean true, not the original default 5 (`bool(5)` in Python);
and of two calls sharing the explicit title "t" with integer defaults 1 and
2, the first renders as 2, not its own default 1. -/
theorem input_round_trip_counterexample :
    ((renderRun (storedOf (scanRun []
        [⟨Value.int 5, none, some "bool", none, none, none, none, none⟩])) [] 0
        [⟨Value.int 5, none, some "bool", none, none, none, none, none⟩])[0]?
      = some (.ok (Value.bool true)) ∧
     (Value.bool true : Value) ≠ Value.int 5) ∧
    ((renderRun (storedOf (scanRun []
        [⟨Value.int 1, some "t", none, none, none, none, none, none⟩,
         ⟨Value.int 2, some "t", none, none, none, none, none, none⟩])) [] 0
        [⟨Value.int 1, some "t", none, none, none, none, none, none⟩,
         ⟨Value.int 2, some "t", none, none, none, none, none, none⟩])[0]?
      = some (.ok (Value.int 2)) ∧
     (Value.int 2 : Value) ≠ Value.int 1) := by
  refine ⟨⟨?_, by decide⟩, ⟨?_, by decide⟩⟩ <;> rfl

/-- C4 (amended): scan then render round-trips every default.  For a call
list whose recorded descriptor titles are pairwise distinct, rendering with
stored values built from exactly the scan pass's descriptors returns, for
every call whose effective type is not "source" and whose explicit
bool/integer/float type (if any) matches the default's kind, a value
identical to the original default after coercion. -/
theorem input_round_trip_amended (calls : List ParsedInput) (tabs : List Scope)
    (hnodup : ((scanList 0 calls).map InputDesc.title).Nodup)
    (hfix : ∀ p ∈ calls, specCoercionFixesDefault p = true)
    (i : Nat) (hi : i < calls.length) :
    (renderRun (storedOf (scanRun [] calls)) tabs 0 calls)[i]?
      = some (.ok calls[i].defval) := by
  have hsr : scanRun [] calls = scanList 0 calls := by
    simpa using scanRun_eq calls []
  rw [hsr]
  rw [renderRun_getElem (storedOf (scanList 0 calls)) tabs calls 0 i hi]
  have hlen : i < (scanList 0 calls).length := by rw [scanList_length]; exact hi
  have hdesc : (scanList 0 calls).get ⟨i, hlen⟩ = scanDesc i calls[i] := by
    have h1 := scanList_getElem calls 0 i hi
    rw [List.getElem?_eq_getElem hlen] at h1
    rw [List.get_eq_getElem]
    simpa using h1
  have hst := storedOf_get_aux (scanList 0 calls) [] hnodup i hlen
  rw [hdesc] at hst
  have hzero : (0 : Nat) + i = i := Nat.zero_add i
  rw [hzero]
  congr 1
  exact renderInput_fixes (storedOf (scanList 0 calls)) tabs i calls[i] hst
    (hfix calls[i] (List.getElem_mem hi))

/-- Witness for the amended round-trip theorem: one call with integer default
5 and no explicit type renders back to exactly the integer 5. -/
theorem input_round_trip_amended_witness :
    (renderRun (storedOf (scanRun []
        [⟨Value.int 5, none, none, none, none, none, none, none⟩])) [] 0
        [⟨Value.int 5, none, none, none, none, none, none, none⟩])[0]?
      = some (.ok (Value.int 5)) :=
  input_round_trip_amended [⟨Value.int 5, none, none, none, none, none, none, none⟩]
    [] (by decide) (by decide) 0 (by decide)
